import Mathlib

/-!
A shallow embedding of the ranking and preference-adaptation core of the
quantum-daily repository (`app/ranker.py`, `app/workflow.py`,
`app/routers/prefs.py`, `app/schema.py`, `app/models.py`).

Modelling conventions:
* Python floats are modelled by exact rationals `ℚ`; clamping and
  renormalisation are algebraic, so exact arithmetic captures them.
* `datetime` values are modelled as rational timestamps in seconds;
  `(a - b).total_seconds()` becomes rational subtraction.
* `math.log10` is transcendental, so it is threaded through as an abstract
  parameter `log10 : ℚ → ℚ`; every theorem about the scorer holds for an
  arbitrary such function (with monotonicity assumed where needed).
* Python `min`/`max` are spelled with explicit conditionals (`qmin`,
  `qmax`), definitionally the usual `min`/`max` on `ℚ`.
* Python string operations are modelled on the character list of the
  string: `s.startswith(p)`, `s[n:]`, `s.lower()`, `k in t`.
* Python dicts (`source_bias`, `topic_bias`) are association lists with
  unique keys; `d.get(k, v)` is `dget`, `d[k] = v` is `dset` (update in
  place if present, append otherwise), mirroring insertion-order semantics.
* Python dict item access `item["k"]` on a possibly-missing key is
  modelled with `Option` fields and an `Except String` result
  (`KeyError` becomes `.error "KeyError"`).
-/

namespace QuantumDaily

/-- Python `min` on floats. -/
def qmin (a b : ℚ) : ℚ := if a ≤ b then a else b

/-- Python `max` on floats. -/
def qmax (a b : ℚ) : ℚ := if a ≤ b then b else a

/-- Python `s.startswith(p)`. -/
def sStarts (p s : String) : Bool := p.toList.isPrefixOf s.toList

/-- Python `s[n:]` (character slicing). -/
def sDropChars (n : Nat) (s : String) : String := ⟨s.toList.drop n⟩

/-- Predicate `occursChars ks ts` is true iff `ks` is a contiguous sublist of `ts`. -/
def occursChars : List Char → List Char → Bool
  | ks, [] => ks.isEmpty
  | ks, c :: ts => ks.isPrefixOf (c :: ts) || occursChars ks ts

/-- Python `k in t` for strings: `k` occurs as a contiguous substring. -/
def sOccurs (k t : String) : Bool := occursChars k.toList t.toList

/-- Python `s.lower()` (all source keywords are ASCII). -/
def sLower (s : String) : String := ⟨s.toList.map Char.toLower⟩

/-- A Python dict from strings to floats, as an association list. -/
abbrev Dict := List (String × ℚ)

/-- Python `d.get(k, dflt)` — value of the first binding of `k`, else `dflt`. -/
def dget (d : Dict) (k : String) (dflt : ℚ) : ℚ :=
  match d.find? (fun kv => kv.1 == k) with
  | some kv => kv.2
  | none => dflt

/-- Python `d[k] = v` — replace the binding in place if present, else append. -/
def dset (d : Dict) (k : String) (v : ℚ) : Dict :=
  if d.any (fun kv => kv.1 == k) then
    d.map (fun kv => if kv.1 == k then (k, v) else kv)
  else d ++ [(k, v)]

/-- The singleton preference record (`models.py`, `UserPrefs`). -/
structure UserPrefs where
  industry_weight : ℚ
  tech_weight : ℚ
  email : String
  send_hour_local : Int
  source_bias : Dict
  topic_bias : Dict
deriving Repr, DecidableEq

/-- Defaults from `models.py`: `industry_weight=0.7, tech_weight=0.3`. -/
def defaultUserPrefs : UserPrefs :=
  { industry_weight := 7/10, tech_weight := 3/10, email := "",
    send_hour_local := 8, source_bias := [], topic_bias := [] }

/-- A feedback event as consumed by `apply_feedback` (`schema.py`). -/
structure FeedbackEv where
  signal : String
  aspect : String
deriving Repr, DecidableEq

/-- The default learning rate of `apply_feedback` (`lr=0.05`). -/
def default_lr : ℚ := 1/20

/-- One iteration of the event loop of `ranker.apply_feedback`
(`ranker.py` lines 32–48). -/
def fbStep (lr : ℚ) (p : UserPrefs) (fb : FeedbackEv) : UserPrefs :=
  if fb.aspect = "industry" ∨ fb.aspect = "tech" then
    let delta : ℚ := (if fb.signal = "+1" ∨ fb.signal = "more" then 1
      else if fb.signal = "-1" ∨ fb.signal = "less" then -1 else 0) * lr
    if fb.aspect = "industry" then
      let w := qmin 1 (qmax 0 (p.industry_weight + delta))
      { p with industry_weight := w, tech_weight := 1 - w }
    else
      let w := qmin 1 (qmax 0 (p.tech_weight + delta))
      { p with tech_weight := w, industry_weight := 1 - w }
  else if sStarts "source:" fb.aspect then
    let name := sDropChars 7 fb.aspect
    let v := (dget p.source_bias name 0 + (if fb.signal = "+1" ∨ fb.signal = "more" then lr else -lr))
    { p with source_bias := (dset p.source_bias name v) }
  else if sStarts "topic:" fb.aspect then
    let name := sDropChars 6 fb.aspect
    let v := (dget p.topic_bias name 0 + (if fb.signal = "+1" ∨ fb.signal = "more" then lr else -lr))
    { p with topic_bias := (dset p.topic_bias name v) }
  else p

/-- Final clamp pass of `apply_feedback` (`ranker.py` lines 50–52):
every stored bias value is clamped to `[-0.5, 0.5]`. -/
def clampBias (d : Dict) : Dict :=
  d.map (fun kv => (kv.1, qmax (-(1/2) : ℚ) (qmin (1/2 : ℚ) kv.2)))

/-- Function `ranker.apply_feedback(prefs, fb_list, lr)`: process all events in
order, then clamp both bias maps. -/
def apply_feedback (p : UserPrefs) (fbs : List FeedbackEv) (lr : ℚ) : UserPrefs :=
  let q := fbs.foldl (fbStep lr) p
  { q with source_bias := clampBias q.source_bias, topic_bias := clampBias q.topic_bias }

/-- The soft two-way classification produced by
`classify_industry_vs_tech` (both keys always present). -/
structure Classification where
  industry : ℚ
  tech : ℚ
deriving Repr, DecidableEq

/-- Industry-signal keyword list (`ranker.py` lines 7–8). -/
def industry_kws : List String :=
  ["partnership","funding","acquisition","deal","deploy","product","roadmap",
   "market","customer","commercial","hiring","announcement","launch"]

/-- Tech-signal keyword list (`ranker.py` lines 9–10). -/
def tech_kws : List String :=
  ["qubit","error rate","decoherence","benchmark","algorithm","architecture",
   "compiler","gate","circuit","fault-tolerant","paper","arxiv"]

/-- The body of `classify_industry_vs_tech` once `title` and `content`
have been read from the item dict (`ranker.py` lines 6–16). -/
def classifyCore (title content : String) : Classification :=
  let t := sLower (title ++ " " ++ content)
  let i_score : ℕ := industry_kws.countP (fun k => sOccurs k t)
  let t_score : ℕ := tech_kws.countP (fun k => sOccurs k t)
  let total : ℚ := (i_score : ℚ) + (t_score : ℚ) + 1/1000000
  { industry := (i_score : ℚ) / total, tech := (t_score : ℚ) / total }

/-- An ingested item as a Python dict: an absent key is `none`.
`published_at` present with value `None` is `some none`. -/
structure ItemD where
  url : Option String
  title : Option String
  content : Option String
  published_at : Option (Option ℚ)
  source : Option String
deriving Repr, DecidableEq

/-- Function `classify_industry_vs_tech(item)`: `item["title"]` raises `KeyError`
when the key is absent; `item.get("content","")` defaults. -/
def classifyE (it : ItemD) : Except String Classification :=
  match it.title with
  | none => .error "KeyError"
  | some title => .ok (classifyCore title (it.content.getD ""))

/-- Quantity `age_hours` in `composite_score`: `(now - (item["published_at"] or
now)).total_seconds()/3600`, with `pub = none` meaning value `None`. -/
def ageHours (pub : Option ℚ) (now : ℚ) : ℚ := (now - pub.getD now) / 3600

/-- Quantity `recency_hours = 1.0 / max(1.0, age_hours)` (`ranker.py` line 20). -/
def recencyHours (pub : Option ℚ) (now : ℚ) : ℚ := 1 / qmax 1 (ageHours pub now)

/-- Quantity `recency_bonus = 0.10 * math.log10(1 + recency_hours)` with the
abstract `log10` (`ranker.py` line 21). -/
def recencyBonus (log10 : ℚ → ℚ) (pub : Option ℚ) (now : ℚ) : ℚ :=
  (1/10) * log10 (1 + recencyHours pub now)

/-- Function `composite_score(item, cls, prefs, now)` (`ranker.py` lines 18–29),
with dict accesses `item["published_at"]` and `item["source"]` made
explicit: a missing key is a `KeyError`. -/
def compositeScoreE (log10 : ℚ → ℚ) (it : ItemD) (cls : Classification)
    (prefs : UserPrefs) (now : ℚ) : Except String ℚ :=
  match it.published_at with
  | none => .error "KeyError"
  | some pub =>
    let recency_bonus := recencyBonus log10 pub now
    match it.source with
    | none => .error "KeyError"
    | some src =>
      let source_bias := dget prefs.source_bias src 0
      let topic_bias := dget prefs.topic_bias "industry" 0 * cls.industry
        + dget prefs.topic_bias "tech" 0 * cls.tech
      let base := prefs.industry_weight * cls.industry + prefs.tech_weight * cls.tech
      .ok (base + source_bias + topic_bias + recency_bonus)

/-- The preference-update request body (`schema.py`, `PrefsIn`). -/
structure PrefsIn where
  industry_weight : Option ℚ
  tech_weight : Option ℚ
  email : Option String
  send_hour_local : Option Int
deriving Repr, DecidableEq

/-- The mutation performed by `POST /prefs` (`routers/prefs.py` lines
16–24) on the loaded preference record. -/
def update_prefs (prefs : UserPrefs) (body : PrefsIn) : UserPrefs :=
  let p1 :=
    match body.industry_weight, body.tech_weight with
    | some iw, some tw =>
      let total := qmax (1/1000000) (iw + tw)
      { prefs with industry_weight := iw / total, tech_weight := tw / total }
    | _, _ => prefs
  let p2 := match body.email with
    | some e => { p1 with email := e }
    | none => p1
  match body.send_hour_local with
  | some h => { p2 with send_hour_local := h }
  | none => p2

/-- An item augmented in place with `category` and `score` by the
scoring loop of `run_daily` (`workflow.py` lines 94–120). -/
structure ScoredItem where
  item : ItemD
  category : String
  score : ℚ
deriving Repr, DecidableEq

/-- Descending comparison on scores: the sort key relation of
`sorted(scored, key=lambda x: x.get("score", 0.0), reverse=True)`. -/
def scoreGE (a b : ScoredItem) : Prop := b.score ≤ a.score

instance : DecidableRel scoreGE := fun a b => inferInstanceAs (Decidable (b.score ≤ a.score))

instance : IsTotal ScoredItem scoreGE := ⟨fun a b => le_total b.score a.score⟩

instance : IsTrans ScoredItem scoreGE := ⟨fun _ _ _ h1 h2 => le_trans h2 h1⟩

/-- Python `sorted(..., key=score, reverse=True)`: a stable descending
sort by score, realised as a stable insertion sort. -/
def sortByScoreDesc (l : List ScoredItem) : List ScoredItem :=
  l.insertionSort scoreGE

/-- Constant `TOP_N = 12` (`workflow.py` line 21). -/
def TOP_N : ℕ := 12

/-- The select-top-N step of `run_daily` (`workflow.py` line 137):
`sorted(scored, key=..., reverse=True)[:top_n]`. -/
def selectTop (l : List ScoredItem) (top_n : ℕ) : List ScoredItem :=
  (sortByScoreDesc l).take top_n

/-- The per-item classify-and-score step of `run_daily` (`workflow.py`
lines 94–120): a classification failure falls back to `{0, 0}`, a
scoring failure to score `0.0`; `category` favours industry on ties. -/
def scoreItem (log10 : ℚ → ℚ) (prefs : UserPrefs) (now : ℚ) (it : ItemD) : ScoredItem :=
  let cls := match classifyE it with
    | .ok c => c
    | .error _ => { industry := 0, tech := 0 }
  let score := match compositeScoreE log10 it cls prefs now with
    | .ok s => s
    | .error _ => 0
  let category := if cls.tech ≤ cls.industry then "industry" else "tech"
  { item := it, category := category, score := score }

/-- The ranking pipeline of `run_daily`: classify and score every item,
stable-sort descending by score, truncate to `TOP_N`. The wall clock of
the scorer is the explicit `now` parameter. -/
def rankPipeline (log10 : ℚ → ℚ) (items : List ItemD) (prefs : UserPrefs) (now : ℚ) :
    List ScoredItem :=
  selectTop (items.map (scoreItem log10 prefs now)) TOP_N

/-! ### Helper lemmas -/

theorem qmin_eq (a b : ℚ) : qmin a b = min a b := by rw [qmin, min_def]

theorem qmax_eq (a b : ℚ) : qmax a b = max a b := by rw [qmax, max_def]

theorem mem_clampBias_bound (d : Dict) :
    ∀ kv ∈ clampBias d, -(1/2 : ℚ) ≤ kv.2 ∧ kv.2 ≤ 1/2 := by
  intro kv hkv
  simp only [clampBias, List.mem_map] at hkv
  obtain ⟨⟨k, v⟩, _, rfl⟩ := hkv
  refine ⟨?_, ?_⟩
  · rw [qmax_eq]; exact le_max_left _ _
  · rw [qmax_eq, qmin_eq]
    exact max_le (by norm_num) (min_le_left _ _)

theorem apply_feedback_industry (p : UserPrefs) (l : List FeedbackEv) (lr : ℚ) :
    (apply_feedback p l lr).industry_weight = (l.foldl (fbStep lr) p).industry_weight := rfl

theorem apply_feedback_tech (p : UserPrefs) (l : List FeedbackEv) (lr : ℚ) :
    (apply_feedback p l lr).tech_weight = (l.foldl (fbStep lr) p).tech_weight := rfl

theorem fbStep_weight_sum (lr : ℚ) (p : UserPrefs) (fb : FeedbackEv)
    (h : fb.aspect = "industry" ∨ fb.aspect = "tech") :
    (fbStep lr p fb).industry_weight + (fbStep lr p fb).tech_weight = 1 := by
  rcases h with h | h <;> simp [fbStep, h]

theorem foldl_fbStep_weight_sum (lr : ℚ) (l : List FeedbackEv) :
    ∀ p : UserPrefs, l ≠ [] →
    (∀ fb ∈ l, fb.aspect = "industry" ∨ fb.aspect = "tech") →
    (l.foldl (fbStep lr) p).industry_weight + (l.foldl (fbStep lr) p).tech_weight = 1 := by
  induction l with
  | nil => intro p h _; exact absurd rfl h
  | cons fb rest ih =>
    intro p _ hall
    by_cases hr : rest = []
    · subst hr
      simpa using fbStep_weight_sum lr p fb (hall fb (List.mem_cons_self _ _))
    · simpa [List.foldl_cons] using
        ih (fbStep lr p fb) hr (fun x hx => hall x (List.mem_cons_of_mem _ hx))

/-! ### C1 -/

/-- C1 (amended: the batch must be nonempty; the empty batch returns the
weights untouched). For every preference record and every nonempty
sequence of feedback events whose aspects are the literals `"industry"`
or `"tech"`, after `apply_feedback` returns,
`industry_weight + tech_weight` equals 1 exactly (hence within 1e-9):
each weight update clamps the named weight to `[0,1]` and then forces
the complementary weight to one minus the clamped value. -/
theorem apply_feedback_weight_sum (p : UserPrefs) (l : List FeedbackEv) (lr : ℚ)
    (hne : l ≠ [])
    (hall : ∀ fb ∈ l, fb.aspect = "industry" ∨ fb.aspect = "tech") :
    (apply_feedback p l lr).industry_weight + (apply_feedback p l lr).tech_weight = 1 := by
  rw [apply_feedback_industry, apply_feedback_tech]
  exact foldl_fbStep_weight_sum lr l p hne hall

/-- Witness for C1's theorem at a concrete record and batch. -/
theorem apply_feedback_weight_sum_witness :
    ([(⟨"+1", "industry"⟩ : FeedbackEv)] ≠ []) ∧
    (apply_feedback defaultUserPrefs [⟨"+1", "industry"⟩] default_lr).industry_weight
      + (apply_feedback defaultUserPrefs [⟨"+1", "industry"⟩] default_lr).tech_weight = 1 :=
  ⟨by simp, apply_feedback_weight_sum defaultUserPrefs [⟨"+1", "industry"⟩] default_lr
    (by simp) (by decide)⟩

/-- C1 counterexample: `apply_feedback` on the empty batch (whose events
vacuously all target `"industry"`/`"tech"`) leaves an ill-formed record
ill-formed; the weight sum misses 1.0 by far more than 1e-9. -/
theorem apply_feedback_weight_sum_cex :
    1/1000000000 <
      |(apply_feedback ⟨1/2, 9/10, "", 8, [], []⟩ [] default_lr).industry_weight
        + (apply_feedback ⟨1/2, 9/10, "", 8, [], []⟩ [] default_lr).tech_weight - 1| := by
  have h1 : (apply_feedback ⟨1/2, 9/10, "", 8, [], []⟩ [] default_lr).industry_weight = 1/2 := rfl
  have h2 : (apply_feedback ⟨1/2, 9/10, "", 8, [], []⟩ [] default_lr).tech_weight = 9/10 := rfl
  rw [h1, h2, show (1/2 + 9/10 - 1 : ℚ) = 2/5 by norm_num, abs_of_pos (by norm_num)]
  norm_num

/-! ### C2 -/

/-- C2. For every preference record whose bias values lie in
`[-0.5, 0.5]` and every batch of feedback events of any length and
polarity, after `apply_feedback` returns, every value in `source_bias`
and `topic_bias` lies in `[-0.5, 0.5]`; moreover the clamp is a
post-pass over all keys after all events, not per event: starting from
`source_bias["s"] = 0.48`, the batch `[+1, -1]` on `source:s` returns
0.48 (per-event clamping would have produced 0.45). -/
theorem apply_feedback_bias_bounded :
    (∀ (p : UserPrefs) (l : List FeedbackEv) (lr : ℚ),
      (∀ kv ∈ p.source_bias, -(1/2 : ℚ) ≤ kv.2 ∧ kv.2 ≤ 1/2) →
      (∀ kv ∈ p.topic_bias, -(1/2 : ℚ) ≤ kv.2 ∧ kv.2 ≤ 1/2) →
      (∀ kv ∈ (apply_feedback p l lr).source_bias, -(1/2 : ℚ) ≤ kv.2 ∧ kv.2 ≤ 1/2) ∧
      (∀ kv ∈ (apply_feedback p l lr).topic_bias, -(1/2 : ℚ) ≤ kv.2 ∧ kv.2 ≤ 1/2)) ∧
    dget (apply_feedback { defaultUserPrefs with source_bias := [("s", 12/25)] }
        [⟨"+1", "source:s"⟩, ⟨"-1", "source:s"⟩] default_lr).source_bias "s" 0 = 12/25 := by
  constructor
  · intro p l lr _ _
    exact ⟨mem_clampBias_bound _, mem_clampBias_bound _⟩
  · simp [apply_feedback, fbStep, sStarts, sDropChars, dget, dset, clampBias,
      qmin, qmax, default_lr, defaultUserPrefs]
    norm_num

/-- Witness for C2's theorem: the bound holds after a mixed batch on an
in-range record. -/
theorem apply_feedback_bias_bounded_witness :
    (∀ kv ∈ (apply_feedback defaultUserPrefs
        [⟨"+1", "source:x"⟩, ⟨"-1", "topic:tech"⟩] default_lr).source_bias,
      -(1/2 : ℚ) ≤ kv.2 ∧ kv.2 ≤ 1/2) ∧
    (∀ kv ∈ (apply_feedback defaultUserPrefs
        [⟨"+1", "source:x"⟩, ⟨"-1", "topic:tech"⟩] default_lr).topic_bias,
      -(1/2 : ℚ) ≤ kv.2 ∧ kv.2 ≤ 1/2) :=
  apply_feedback_bias_bounded.1 defaultUserPrefs
    [⟨"+1", "source:x"⟩, ⟨"-1", "topic:tech"⟩] default_lr
    (by simp [defaultUserPrefs]) (by simp [defaultUserPrefs])

theorem dget_dset_self (d : Dict) (k : String) (v dflt : ℚ) :
    dget (dset d k v) k dflt = v := by
  unfold dget dset
  by_cases h : d.any (fun kv => kv.1 == k)
  · rw [if_pos h, List.find?_map]
    have hpf : ((fun kv : String × ℚ => kv.1 == k) ∘
        (fun kv : String × ℚ => if kv.1 == k then (k, v) else kv))
        = fun kv : String × ℚ => kv.1 == k := by
      funext kv
      by_cases hk : kv.1 == k <;> simp [Function.comp, hk]
    rw [hpf]
    obtain ⟨kv0, hmem, hkv0⟩ := List.any_eq_true.mp h
    cases hfind : d.find? (fun kv => kv.1 == k) with
    | none =>
      rw [List.find?_eq_none] at hfind
      exact absurd hkv0 (hfind kv0 hmem)
    | some kv1 =>
      have h1 := List.find?_some hfind
      have h2 : kv1.1 = k := by simpa using h1
      simp [h2]
  · rw [if_neg h, List.find?_append]
    have hf : d.any (fun kv => kv.1 == k) = false := by
      revert h; cases d.any (fun kv => kv.1 == k) <;> simp
    have hnone : d.find? (fun kv => kv.1 == k) = none :=
      List.find?_eq_none.mpr (List.any_eq_false.mp hf)
    simp [hnone]

theorem dget_clampBias (d : Dict) (k : String) :
    dget (clampBias d) k 0 = qmax (-(1/2)) (qmin (1/2) (dget d k 0)) := by
  unfold dget clampBias
  rw [List.find?_map]
  have hpf : ((fun kv : String × ℚ => kv.1 == k) ∘
      (fun kv : String × ℚ => (kv.1, qmax (-(1/2) : ℚ) (qmin (1/2 : ℚ) kv.2))))
      = fun kv : String × ℚ => kv.1 == k := by
    funext kv; simp [Function.comp]
  rw [hpf]
  cases hfind : d.find? (fun kv => kv.1 == k) with
  | none => simp [qmin, qmax]; norm_num
  | some kv => simp

theorem apply_feedback_single_source (p : UserPrefs) (fb : FeedbackEv) (lr : ℚ) :
    (apply_feedback p [fb] lr).source_bias = clampBias ((fbStep lr p fb).source_bias) := rfl

theorem apply_feedback_single_topic (p : UserPrefs) (fb : FeedbackEv) (lr : ℚ) :
    (apply_feedback p [fb] lr).topic_bias = clampBias ((fbStep lr p fb).topic_bias) := rfl

/-! ### C3 -/

/-- C3 counterexample: an event with the unrecognized signal `"banana"`
on aspect `"source:x"` is not a no-op: it moves `source_bias["x"]` from
its (absent, hence 0) starting value to `-0.05`. -/
theorem unrecognized_signal_cex :
    dget (apply_feedback defaultUserPrefs [⟨"banana", "source:x"⟩] default_lr).source_bias "x" 0
        = -(1/20)
    ∧ dget defaultUserPrefs.source_bias "x" 0 = 0
    ∧ (-(1/20) : ℚ) ≠ 0 := by
  refine ⟨?_, rfl, by norm_num⟩
  simp [apply_feedback, fbStep, sStarts, sDropChars, dget, dset, clampBias,
    qmin, qmax, default_lr, defaultUserPrefs]
  norm_num

/-- C3 (amended): for a feedback event whose aspect starts with
`"source:"` (resp. `"topic:"`) , any signal other than `"+1"`/`"more"` —
in particular every unrecognized signal — is treated like `"-1"`/`"less"`:
the named entry is decremented by the learning rate (and then clamped by
the final post-pass), not left unchanged. -/
theorem unrecognized_signal_decrements (p : UserPrefs) (fb : FeedbackEv) (lr : ℚ)
    (hind : fb.aspect ≠ "industry") (htech : fb.aspect ≠ "tech")
    (hsig : ¬(fb.signal = "+1" ∨ fb.signal = "more")) :
    (sStarts "source:" fb.aspect = true →
      dget (apply_feedback p [fb] lr).source_bias (sDropChars 7 fb.aspect) 0
        = qmax (-(1/2)) (qmin (1/2) (dget p.source_bias (sDropChars 7 fb.aspect) 0 - lr)))
    ∧ (sStarts "source:" fb.aspect = false → sStarts "topic:" fb.aspect = true →
      dget (apply_feedback p [fb] lr).topic_bias (sDropChars 6 fb.aspect) 0
        = qmax (-(1/2)) (qmin (1/2) (dget p.topic_bias (sDropChars 6 fb.aspect) 0 - lr))) := by
  constructor
  · intro hs
    rw [apply_feedback_single_source, dget_clampBias]
    have hstep : (fbStep lr p fb).source_bias
        = dset p.source_bias (sDropChars 7 fb.aspect)
            (dget p.source_bias (sDropChars 7 fb.aspect) 0 + -lr) := by
      simp [fbStep, hind, htech, hs, hsig]
    rw [hstep, dget_dset_self, sub_eq_add_neg]
  · intro hs ht
    rw [apply_feedback_single_topic, dget_clampBias]
    have hstep : (fbStep lr p fb).topic_bias
        = dset p.topic_bias (sDropChars 6 fb.aspect)
            (dget p.topic_bias (sDropChars 6 fb.aspect) 0 + -lr) := by
      simp [fbStep, hind, htech, hs, ht, hsig]
    rw [hstep, dget_dset_self, sub_eq_add_neg]

/-- Witness for C3's amended theorem at signal `"banana"` on
`"source:x"`. -/
theorem unrecognized_signal_decrements_witness :
    (("source:x" : String) ≠ "industry")
    ∧ sStarts "source:" "source:x" = true
    ∧ dget (apply_feedback defaultUserPrefs [⟨"banana", "source:x"⟩] default_lr).source_bias
        (sDropChars 7 "source:x") 0
      = qmax (-(1/2)) (qmin (1/2) (dget defaultUserPrefs.source_bias (sDropChars 7 "source:x") 0
          - default_lr)) :=
  ⟨by decide, by decide,
    (unrecognized_signal_decrements defaultUserPrefs ⟨"banana", "source:x"⟩ default_lr
      (by decide) (by decide) (by decide)).1 (by decide)⟩

theorem fbStep_industry_plus (lr : ℚ) (p : UserPrefs) (fb : FeedbackEv)
    (ha : fb.aspect = "industry") (hs : fb.signal = "+1" ∨ fb.signal = "more") :
    (fbStep lr p fb).industry_weight = qmin 1 (qmax 0 (p.industry_weight + lr)) := by
  rcases hs with h | h <;> simp [fbStep, ha, h]

theorem fbStep_industry_minus (lr : ℚ) (p : UserPrefs) (fb : FeedbackEv)
    (ha : fb.aspect = "industry") (hs : fb.signal = "-1" ∨ fb.signal = "less") :
    (fbStep lr p fb).industry_weight = qmin 1 (qmax 0 (p.industry_weight - lr)) := by
  rcases hs with h | h <;> simp [fbStep, ha, h, sub_eq_add_neg]

theorem foldl_industry_plus (lr : ℚ) (hlr : 0 ≤ lr) (l : List FeedbackEv) :
    ∀ p : UserPrefs, 0 ≤ p.industry_weight → p.industry_weight ≤ 1 →
    (∀ fb ∈ l, fb.aspect = "industry" ∧ (fb.signal = "+1" ∨ fb.signal = "more")) →
    (l.foldl (fbStep lr) p).industry_weight = min 1 (p.industry_weight + l.length * lr) := by
  induction l with
  | nil =>
    intro p h0 h1 _
    simp [min_eq_right h1]
  | cons fb rest ih =>
    intro p h0 h1 hall
    obtain ⟨ha, hs⟩ := hall fb (List.mem_cons_self _ _)
    have hstep : (fbStep lr p fb).industry_weight = min 1 (p.industry_weight + lr) := by
      rw [fbStep_industry_plus lr p fb ha hs, qmin_eq, qmax_eq,
        max_eq_right (by linarith : (0:ℚ) ≤ p.industry_weight + lr)]
    have h0' : 0 ≤ (fbStep lr p fb).industry_weight := by
      rw [hstep]; exact le_min (by norm_num) (by linarith)
    have h1' : (fbStep lr p fb).industry_weight ≤ 1 := by
      rw [hstep]; exact min_le_left _ _
    have := ih (fbStep lr p fb) h0' h1'
      (fun x hx => hall x (List.mem_cons_of_mem _ hx))
    rw [List.foldl_cons, this, hstep]
    simp only [List.length_cons]
    push_cast
    have harg : p.industry_weight + ((rest.length : ℚ) + 1) * lr
        = (p.industry_weight + lr) + (rest.length : ℚ) * lr := by ring
    rw [harg]
    have hn : (0:ℚ) ≤ (rest.length : ℚ) * lr :=
      mul_nonneg (Nat.cast_nonneg _) hlr
    rcases le_total (p.industry_weight + lr) 1 with hle | hle
    · rw [min_eq_right hle]
    · rw [min_eq_left hle]
      rw [min_eq_left (by linarith), min_eq_left (by linarith)]

theorem foldl_industry_minus (lr : ℚ) (hlr : 0 ≤ lr) (l : List FeedbackEv) :
    ∀ p : UserPrefs, 0 ≤ p.industry_weight → p.industry_weight ≤ 1 →
    (∀ fb ∈ l, fb.aspect = "industry" ∧ (fb.signal = "-1" ∨ fb.signal = "less")) →
    (l.foldl (fbStep lr) p).industry_weight = max 0 (p.industry_weight - l.length * lr) := by
  induction l with
  | nil =>
    intro p h0 h1 _
    simp [max_eq_right h0]
  | cons fb rest ih =>
    intro p h0 h1 hall
    obtain ⟨ha, hs⟩ := hall fb (List.mem_cons_self _ _)
    have hstep : (fbStep lr p fb).industry_weight = max 0 (p.industry_weight - lr) := by
      rw [fbStep_industry_minus lr p fb ha hs, qmin_eq, qmax_eq,
        min_eq_right (max_le (by norm_num) (by linarith))]
    have h0' : 0 ≤ (fbStep lr p fb).industry_weight := by
      rw [hstep]; exact le_max_left _ _
    have h1' : (fbStep lr p fb).industry_weight ≤ 1 := by
      rw [hstep]; exact max_le (by norm_num) (by linarith)
    have := ih (fbStep lr p fb) h0' h1'
      (fun x hx => hall x (List.mem_cons_of_mem _ hx))
    rw [List.foldl_cons, this, hstep]
    simp only [List.length_cons]
    push_cast
    have harg : p.industry_weight - ((rest.length : ℚ) + 1) * lr
        = (p.industry_weight - lr) - (rest.length : ℚ) * lr := by ring
    rw [harg]
    have hn : (0:ℚ) ≤ (rest.length : ℚ) * lr :=
      mul_nonneg (Nat.cast_nonneg _) hlr
    rcases le_total (p.industry_weight - lr) 0 with hle | hle
    · rw [max_eq_left hle]
      rw [max_eq_left (by linarith), max_eq_left (by linarith)]
    · rw [max_eq_right hle]

/-! ### C4 -/

/-- C4 (amended: requires the record's `industry_weight` to lie in the
valid range `[0,1]`; a record with `industry_weight > 1` is reduced to 1
by the very first `"+1"` event). For such a record, a batch of
`"+1"`/`"more"` events on `"industry"` never decreases `industry_weight`
at any step and drives it to exactly 1.0 once the batch has at least 20
events (learning rate 0.05); symmetrically, `"-1"`/`"less"` events never
increase it and drive it to exactly 0.0. -/
theorem feedback_monotone_saturation (p : UserPrefs) (l : List FeedbackEv) (k : ℕ)
    (h0 : 0 ≤ p.industry_weight) (h1 : p.industry_weight ≤ 1) :
    ((∀ fb ∈ l, fb.aspect = "industry" ∧ (fb.signal = "+1" ∨ fb.signal = "more")) →
      (apply_feedback p (l.take k) default_lr).industry_weight
          ≤ (apply_feedback p (l.take (k+1)) default_lr).industry_weight
        ∧ (20 ≤ l.length → (apply_feedback p l default_lr).industry_weight = 1))
    ∧ ((∀ fb ∈ l, fb.aspect = "industry" ∧ (fb.signal = "-1" ∨ fb.signal = "less")) →
      (apply_feedback p (l.take (k+1)) default_lr).industry_weight
          ≤ (apply_feedback p (l.take k) default_lr).industry_weight
        ∧ (20 ≤ l.length → (apply_feedback p l default_lr).industry_weight = 0)) := by
  have hlr : (0:ℚ) ≤ default_lr := by norm_num [default_lr]
  constructor
  · intro hall
    have htk : ∀ m : ℕ, (apply_feedback p (l.take m) default_lr).industry_weight
        = min 1 (p.industry_weight + (l.take m).length * default_lr) := by
      intro m
      rw [apply_feedback_industry]
      exact foldl_industry_plus default_lr hlr (l.take m) p h0 h1
        (fun x hx => hall x (l.take_subset m hx))
    constructor
    · rw [htk k, htk (k+1)]
      have hlen : ((l.take k).length : ℚ) ≤ ((l.take (k+1)).length : ℚ) := by
        simp only [List.length_take]
        exact_mod_cast min_le_min (Nat.le_succ k) le_rfl
      exact min_le_min le_rfl (by linarith [mul_le_mul_of_nonneg_right hlen hlr])
    · intro h20
      rw [apply_feedback_industry,
        foldl_industry_plus default_lr hlr l p h0 h1 hall]
      have : (20:ℚ) ≤ (l.length : ℚ) := by exact_mod_cast h20
      rw [min_eq_left (by norm_num [default_lr]; linarith)]
  · intro hall
    have htk : ∀ m : ℕ, (apply_feedback p (l.take m) default_lr).industry_weight
        = max 0 (p.industry_weight - (l.take m).length * default_lr) := by
      intro m
      rw [apply_feedback_industry]
      exact foldl_industry_minus default_lr hlr (l.take m) p h0 h1
        (fun x hx => hall x (l.take_subset m hx))
    constructor
    · rw [htk k, htk (k+1)]
      have hlen : ((l.take k).length : ℚ) ≤ ((l.take (k+1)).length : ℚ) := by
        simp only [List.length_take]
        exact_mod_cast min_le_min (Nat.le_succ k) le_rfl
      exact max_le_max le_rfl (by linarith [mul_le_mul_of_nonneg_right hlen hlr])
    · intro h20
      rw [apply_feedback_industry,
        foldl_industry_minus default_lr hlr l p h0 h1 hall]
      have : (20:ℚ) ≤ (l.length : ℚ) := by exact_mod_cast h20
      rw [max_eq_left (by norm_num [default_lr]; linarith)]

/-- Witness for C4's theorem: 20 `"+1"` events on `"industry"` drive the
default record's `industry_weight` to exactly 1. -/
theorem feedback_monotone_saturation_witness :
    (apply_feedback defaultUserPrefs
      (List.replicate 20 ⟨"+1", "industry"⟩) default_lr).industry_weight = 1 :=
  ((feedback_monotone_saturation defaultUserPrefs
      (List.replicate 20 ⟨"+1", "industry"⟩) 0
      (by norm_num [defaultUserPrefs]) (by norm_num [defaultUserPrefs])).1
    (fun fb hfb => by
      have h := List.eq_of_mem_replicate hfb
      subst h
      exact ⟨rfl, Or.inl rfl⟩)).2 (by simp)

/-- C4 counterexample: on a record with `industry_weight = 2` (outside
`[0,1]`, reachable only for ill-formed records), a single `"+1"` event
on `"industry"` strictly decreases `industry_weight` (from 2 to 1), so
the claim fails as stated for arbitrary preference records. -/
theorem feedback_monotone_cex :
    (apply_feedback ⟨2, -1, "", 8, [], []⟩ [⟨"+1", "industry"⟩] default_lr).industry_weight = 1
    ∧ ¬((⟨2, -1, "", 8, [], []⟩ : UserPrefs).industry_weight
        ≤ (apply_feedback ⟨2, -1, "", 8, [], []⟩ [⟨"+1", "industry"⟩] default_lr).industry_weight) := by
  have h : (apply_feedback ⟨2, -1, "", 8, [], []⟩
      [⟨"+1", "industry"⟩] default_lr).industry_weight = 1 := by
    simp [apply_feedback, fbStep, qmin, qmax, default_lr]
    norm_num
  refine ⟨h, ?_⟩
  rw [h]
  show ¬((2:ℚ) ≤ 1)
  norm_num

/-! ### C5 -/

theorem sortByScoreDesc_sorted (l : List ScoredItem) :
    (sortByScoreDesc l).Pairwise scoreGE :=
  List.sorted_insertionSort scoreGE l

theorem sortByScoreDesc_stable (l : List ScoredItem) (q : ℚ) :
    (sortByScoreDesc l).filter (fun a => decide (a.score = q))
      = l.filter (fun a => decide (a.score = q)) := by
  have hpair : (l.filter (fun a => decide (a.score = q))).Pairwise scoreGE := by
    apply List.pairwise_of_forall_mem_list
    intro a ha b hb
    have ha' : a.score = q := by simpa using List.of_mem_filter ha
    have hb' : b.score = q := by simpa using List.of_mem_filter hb
    unfold scoreGE
    rw [ha', hb']
  have hsub : List.Sublist (l.filter (fun a => decide (a.score = q))) (sortByScoreDesc l) :=
    List.sublist_insertionSort hpair (List.filter_sublist l)
  have hsub2 : List.Sublist (l.filter (fun a => decide (a.score = q)))
      ((sortByScoreDesc l).filter (fun a => decide (a.score = q))) := by
    have h2 := hsub.filter (fun a => decide (a.score = q))
    have hpp : (fun a : ScoredItem => decide (a.score = q) && decide (a.score = q))
        = fun a : ScoredItem => decide (a.score = q) := by
      funext a; cases h : decide (a.score = q) <;> simp [h]
    rwa [List.filter_filter, hpp] at h2

  have hperm : List.Perm ((sortByScoreDesc l).filter (fun a => decide (a.score = q)))
      (l.filter (fun a => decide (a.score = q))) :=
    (List.perm_insertionSort scoreGE l).filter _
  exact (hsub2.eq_of_length hperm.length_eq.symm).symm

/-- C5. The select-top step of the ranking pipeline returns exactly
`min(length, top_n)` items, in descending score order produced by a
stable sort (the sorted list is a permutation of the input, and for
every score value the equal-score items appear exactly in input order);
the empty input yields the empty output, and the default `top_n` is
`TOP_N = 12`. -/
theorem selectTop_spec (l : List ScoredItem) (n : ℕ) (q : ℚ)
    (lg : ℚ → ℚ) (p : UserPrefs) (now : ℚ) :
    (selectTop l n).length = min l.length n
    ∧ (selectTop l n).Pairwise scoreGE
    ∧ List.Perm (sortByScoreDesc l) l
    ∧ (sortByScoreDesc l).filter (fun a => decide (a.score = q))
        = l.filter (fun a => decide (a.score = q))
    ∧ selectTop [] n = []
    ∧ rankPipeline lg [] p now = []
    ∧ TOP_N = 12 := by
  refine ⟨?_, ?_, List.perm_insertionSort scoreGE l, sortByScoreDesc_stable l q,
    by simp [selectTop, sortByScoreDesc], by simp [rankPipeline, selectTop, sortByScoreDesc], rfl⟩
  · simp only [selectTop, List.length_take, sortByScoreDesc, List.length_insertionSort]
    exact min_comm _ _
  · exact (sortByScoreDesc_sorted l).sublist (List.take_sublist n _)

/-! ### C6 -/

/-- C6. The recency component of the composite score is exactly
`0.10 * log10(1 + recency_hours)` with
`recency_hours = 1 / max(1, age_hours)` and
`age_hours = (now - published_at)/3600` (`now` replacing an absent
`published_at` value); an absent value yields the bonus
`0.10 * log10 2`, any item at most an hour old (age floored at 1)
yields the same maximal bonus, and for monotone `log10` no item can
exceed it. -/
theorem composite_recency_spec (log10 : ℚ → ℚ) (it : ItemD) (cls : Classification)
    (p : UserPrefs) (now : ℚ) (pub : Option ℚ) (src : String)
    (hpub : it.published_at = some pub) (hsrc : it.source = some src) :
    compositeScoreE log10 it cls p now =
      .ok ((p.industry_weight * cls.industry + p.tech_weight * cls.tech)
        + dget p.source_bias src 0
        + (dget p.topic_bias "industry" 0 * cls.industry
            + dget p.topic_bias "tech" 0 * cls.tech)
        + (1/10) * log10 (1 + 1 / qmax 1 ((now - pub.getD now) / 3600)))
    ∧ recencyBonus log10 none now = (1/10) * log10 2
    ∧ (∀ t : ℚ, (now - t) / 3600 ≤ 1 → recencyBonus log10 (some t) now = (1/10) * log10 2)
    ∧ (Monotone log10 → recencyBonus log10 pub now ≤ (1/10) * log10 2) := by
  refine ⟨?_, ?_, ?_, ?_⟩
  · simp [compositeScoreE, hpub, hsrc, recencyBonus, recencyHours, ageHours]
  · have h0 : ageHours none now = 0 := by simp [ageHours]
    have h1 : qmax 1 (0:ℚ) = 1 := by norm_num [qmax]
    simp [recencyBonus, recencyHours, h0, h1]
    norm_num
  · intro t ht
    have h1 : qmax 1 (ageHours (some t) now) = 1 := by
      rw [qmax_eq]
      exact max_eq_left (by simpa [ageHours] using ht)
    simp [recencyBonus, recencyHours, h1]
    norm_num
  · intro hmono
    have h1 : (1:ℚ) ≤ qmax 1 (ageHours pub now) := by
      rw [qmax_eq]; exact le_max_left _ _
    have hpos : (0:ℚ) < qmax 1 (ageHours pub now) := lt_of_lt_of_le one_pos h1
    have h2 : recencyHours pub now ≤ 1 := by
      rw [recencyHours, div_le_one hpos]
      exact h1
    have h3 : log10 (1 + recencyHours pub now) ≤ log10 2 :=
      hmono (by linarith)
    rw [recencyBonus]
    have h4 : (0:ℚ) ≤ 1/10 := by norm_num
    exact mul_le_mul_of_nonneg_left h3 h4

/-- Witness for C6's theorem: an item with `published_at = None` gets
the maximal recency bonus `0.10 * log10 2` (here with `log10 := id`). -/
theorem composite_recency_spec_witness :
    ((⟨none, none, none, some none, some "s"⟩ : ItemD).published_at = some none)
    ∧ recencyBonus id none 0 = (1/10) * id 2 :=
  ⟨rfl, (composite_recency_spec id ⟨none, none, none, some none, some "s"⟩
    ⟨0, 0⟩ defaultUserPrefs 0 none "s" rfl rfl).2.1⟩

/-! ### C7 -/

/-- C7. For any title and content (including empty), the classifier
output has both components in `[0,1]`; reading it off an item dict with
those fields succeeds; and when no keyword of either fixed list occurs
in the lower-cased `title + " " + content`, both components are exactly
0 (counts divided by the 1e-6-smoothed sum), not 0.5 each. -/
theorem classify_bounds (title content : String) :
    (0 ≤ (classifyCore title content).industry ∧ (classifyCore title content).industry ≤ 1)
    ∧ (0 ≤ (classifyCore title content).tech ∧ (classifyCore title content).tech ≤ 1)
    ∧ (∀ it : ItemD, it.title = some title → it.content = some content →
        classifyE it = .ok (classifyCore title content))
    ∧ ((∀ k ∈ industry_kws, sOccurs k (sLower (title ++ " " ++ content)) = false) →
       (∀ k ∈ tech_kws, sOccurs k (sLower (title ++ " " ++ content)) = false) →
       (classifyCore title content).industry = 0 ∧ (classifyCore title content).tech = 0) := by
  have hi : (0:ℚ) ≤ (industry_kws.countP
      (fun k => sOccurs k (sLower (title ++ " " ++ content))) : ℚ) := Nat.cast_nonneg _
  have ht : (0:ℚ) ≤ (tech_kws.countP
      (fun k => sOccurs k (sLower (title ++ " " ++ content))) : ℚ) := Nat.cast_nonneg _
  refine ⟨⟨?_, ?_⟩, ⟨?_, ?_⟩, ?_, ?_⟩
  · simp only [classifyCore]
    positivity
  · simp only [classifyCore]
    rw [div_le_one (by positivity)]
    linarith
  · simp only [classifyCore]
    positivity
  · simp only [classifyCore]
    rw [div_le_one (by positivity)]
    linarith
  · intro it h1 h2
    simp [classifyE, h1, h2]
  · intro h1 h2
    have hc1 : industry_kws.countP
        (fun k => sOccurs k (sLower (title ++ " " ++ content))) = 0 := by
      rw [List.countP_eq_zero]
      intro k hk
      simp [h1 k hk]
    have hc2 : tech_kws.countP
        (fun k => sOccurs k (sLower (title ++ " " ++ content))) = 0 := by
      rw [List.countP_eq_zero]
      intro k hk
      simp [h2 k hk]
    simp [classifyCore, hc1, hc2]

/-- Witness for C7's theorem at keyword-free text. -/
theorem classify_bounds_witness :
    (classifyCore "hello" "world").industry = 0 ∧ (classifyCore "hello" "world").tech = 0 :=
  (classify_bounds "hello" "world").2.2.2 (by decide) (by decide)

/-! ### C8 -/

/-- C8 counterexample: supplying `industry_weight = 0` and
`tech_weight = 0` together stores weights that sum to 0, not 1: the
divisor is `max(1e-6, 0) = 1e-6` and both stored weights are 0. -/
theorem update_prefs_cex :
    (update_prefs defaultUserPrefs ⟨some 0, some 0, none, none⟩).industry_weight
      + (update_prefs defaultUserPrefs ⟨some 0, some 0, none, none⟩).tech_weight = 0
    ∧ (0:ℚ) ≠ 1 := by
  constructor
  · simp [update_prefs, qmax]
  · norm_num

/-- C8 (amended: the stored weights are always the supplied values
divided by `max(1e-6, their sum)`, and they sum to 1 exactly whenever
the supplied sum is at least 1e-6 — for a smaller or negative sum the
stored sum is `sum/1e-6`, not 1). This renormalisation path is the one
of `POST /prefs`, distinct from the feedback path's complementary
clamp. -/
theorem update_prefs_renormalizes (p : UserPrefs) (body : PrefsIn) (iw tw : ℚ)
    (hiw : body.industry_weight = some iw) (htw : body.tech_weight = some tw) :
    (update_prefs p body).industry_weight = iw / qmax (1/1000000) (iw + tw)
    ∧ (update_prefs p body).tech_weight = tw / qmax (1/1000000) (iw + tw)
    ∧ (1/1000000 ≤ iw + tw →
      (update_prefs p body).industry_weight + (update_prefs p body).tech_weight = 1) := by
  have h1 : (update_prefs p body).industry_weight = iw / qmax (1/1000000) (iw + tw) := by
    rcases hbe : body.email with _ | e <;> rcases hbs : body.send_hour_local with _ | h <;>
      simp [update_prefs, hiw, htw, hbe, hbs]
  have h2 : (update_prefs p body).tech_weight = tw / qmax (1/1000000) (iw + tw) := by
    rcases hbe : body.email with _ | e <;> rcases hbs : body.send_hour_local with _ | h <;>
      simp [update_prefs, hiw, htw, hbe, hbs]
  refine ⟨h1, h2, ?_⟩
  intro hge
  rw [h1, h2]
  have hq : qmax (1/1000000) (iw + tw) = iw + tw := by
    rw [qmax_eq]; exact max_eq_right hge
  have hne : iw + tw ≠ 0 := (lt_of_lt_of_le (by norm_num) hge).ne'
  rw [hq, div_add_div_same, div_self hne]

/-- Witness for C8's amended theorem: supplied weights 3 and 1 are
stored as 3/4 and 1/4, summing to 1. -/
theorem update_prefs_renormalizes_witness :
    ((⟨some 3, some 1, none, none⟩ : PrefsIn).industry_weight = some 3)
    ∧ (update_prefs defaultUserPrefs ⟨some 3, some 1, none, none⟩).industry_weight
        + (update_prefs defaultUserPrefs ⟨some 3, some 1, none, none⟩).tech_weight = 1 :=
  ⟨rfl, (update_prefs_renormalizes defaultUserPrefs ⟨some 3, some 1, none, none⟩ 3 1
    rfl rfl).2.2 (by norm_num)⟩

/-! ### C9 -/

/-- C9. The ranking pipeline (classify, score, sort, truncate) is a
pure function of the item list, the preference record, the clock value
`now` handed to the scorer, and the `log10` function: two invocations
on equal inputs produce equal output lists (same order, same scores).
There is no other hidden state. -/
theorem rank_deterministic (log10 : ℚ → ℚ) (items1 items2 : List ItemD)
    (p1 p2 : UserPrefs) (now1 now2 : ℚ)
    (hi : items1 = items2) (hp : p1 = p2) (hn : now1 = now2) :
    rankPipeline log10 items1 p1 now1 = rankPipeline log10 items2 p2 now2 := by
  rw [hi, hp, hn]

/-- Witness for C9's theorem on a concrete repeated invocation. -/
theorem rank_deterministic_witness :
    rankPipeline id [⟨some "u", some "t", some "c", some none, some "s"⟩]
        defaultUserPrefs 0
      = rankPipeline id [⟨some "u", some "t", some "c", some none, some "s"⟩]
        defaultUserPrefs 0 :=
  rank_deterministic id _ _ defaultUserPrefs defaultUserPrefs 0 0 rfl rfl rfl

/-! ### C10 -/

/-- C10. `composite_score` is total only on item dicts carrying the
keys `published_at` and `source`: a missing key raises `KeyError`
(first `published_at`, then `source`); with both keys present it always
returns a score. The graceful cases are exactly: a present
`published_at` whose value is `None` (scored as if published `now`) and
a source name absent from the bias map (bias contribution 0). -/
theorem composite_totality (log10 : ℚ → ℚ) (it : ItemD) (cls : Classification)
    (p : UserPrefs) (now : ℚ) :
    (it.published_at = none → compositeScoreE log10 it cls p now = .error "KeyError")
    ∧ (it.source = none → compositeScoreE log10 it cls p now = .error "KeyError")
    ∧ (∀ pub src, it.published_at = some pub → it.source = some src →
        ∃ s : ℚ, compositeScoreE log10 it cls p now = .ok s)
    ∧ compositeScoreE log10 { it with published_at := some none } cls p now
        = compositeScoreE log10 { it with published_at := some (some now) } cls p now
    ∧ (∀ src, p.source_bias.find? (fun kv => kv.1 == src) = none →
        dget p.source_bias src 0 = 0) := by
  refine ⟨?_, ?_, ?_, ?_, ?_⟩
  · intro h
    simp [compositeScoreE, h]
  · intro h
    cases hp2 : it.published_at with
    | none => simp [compositeScoreE, hp2]
    | some pub => simp [compositeScoreE, hp2, h]
  · intro pub src h1 h2
    refine ⟨p.industry_weight * cls.industry + p.tech_weight * cls.tech
      + dget p.source_bias src 0
      + (dget p.topic_bias "industry" 0 * cls.industry
          + dget p.topic_bias "tech" 0 * cls.tech)
      + recencyBonus log10 pub now, ?_⟩
    simp [compositeScoreE, h1, h2]
  · cases hs : it.source with
    | none => simp [compositeScoreE, hs]
    | some src =>
      simp [compositeScoreE, hs, recencyBonus, recencyHours, ageHours]
  · intro src h
    simp [dget, h]

/-- Witness for C10's theorem: an item dict without a `published_at`
key makes `composite_score` raise `KeyError`. -/
theorem composite_totality_witness :
    compositeScoreE id ⟨none, none, none, none, none⟩ ⟨0, 0⟩ defaultUserPrefs 0
      = .error "KeyError" :=
  (composite_totality id ⟨none, none, none, none, none⟩ ⟨0, 0⟩ defaultUserPrefs 0).1 rfl

end QuantumDaily
